import Mathlib

/-!
Verification development for the crseg crossroad-segmentation core
(`crossroad.py` and `crossroad_connections.py`).

The road graph, the Reliability oracle, the Util geometry helper and the
BranchDescription predicates are external collaborators of the core; they are
represented as oracle fields of the `Graph` structure.  The `Region` container
(node/edge membership bookkeeping) is not part of the sources either; its
operations are modelled from the specification as explicit state on lists of
regions.  Everything taken from `crossroad.py` / `crossroad_connections.py`
keeps the source names and control structure.
-/

namespace Crseg

attribute [local semireducible] Rat.mul Rat.add Rat.sub Rat.inv

/-- Description of one branch radiating from a crossroad: exit angle and
optional road name (the external `BranchDescription` value object). -/
structure BranchDescription where
  angle : Rat
  name : Option String
deriving DecidableEq, Repr, Inhabited

/-- Attribute record of one road segment as read from the graph: optional
highway class tag and optional road name. -/
structure EdgeAttrs where
  highway : Option String
  name : Option String
deriving DecidableEq, Repr, Inhabited

/-- Modelled from the spec: a `Region` owns a subset of the nodes and edges of
the graph and carries a unique id assigned at creation (`region.py` is not part
of the sources).  Membership is only ever added during growth. -/
structure Reg where
  rid : Nat
  rnodes : List Nat
  redges : List (Nat × Nat)
deriving DecidableEq, Repr, Inhabited

/-- The road-network graph together with the external collaborators.
`nbrs`, `junction`, `ename`, `elen` describe the graph itself;
`wBoundary`, `sBoundary`, `wInCrossroad`, `sInCrossroad`, `wInCrossroadEdge`
are the external Reliability oracle; `bearing`, `dist`, `pathToBiff`,
`pathToBiffR` are the external Util geometry helper
(`get_path_to_biffurcation` with and without a radius bound); `isSimilar` and
`isOrthogonal` are the external BranchDescription predicates. -/
structure Graph where
  nodes : List Nat
  nbrs : Nat → List Nat
  junction : Nat → Nat → Bool
  ename : Nat → Nat → Option String
  elen : Nat → Nat → Rat
  wBoundary : Nat → Bool
  sBoundary : Nat → Bool
  wInCrossroad : Nat → Bool
  sInCrossroad : Nat → Bool
  wInCrossroadEdge : Nat → Nat → Bool
  bearing : Nat → Nat → Rat
  dist : Nat → Nat → Rat
  pathToBiff : Nat → Nat → List Nat
  pathToBiffR : Nat → Nat → Rat → List Nat
  isSimilar : BranchDescription → BranchDescription → Bool
  isOrthogonal : BranchDescription → Rat → Bool

/-- The `max_distance_boundary_polyline` table set up in `Crossroad.__init__`. -/
def max_distance_boundary_polyline : List (String × Rat) :=
  [("motorway", 100), ("trunk", 100), ("primary", 80), ("secondary", 80),
   ("tertiary", 50), ("unclassified", 30), ("residential", 30),
   ("living_street", 25), ("service", 25), ("default", 25)]

/-- The `min_distance_boundary_polyline` table set up in `Crossroad.__init__`. -/
def min_distance_boundary_polyline : List (String × Rat) :=
  [("motorway", 100), ("trunk", 100), ("primary", 50), ("secondary", 30),
   ("tertiary", 25), ("unclassified", 16), ("residential", 16),
   ("living_street", 16), ("service", 12), ("default", 12)]

/-- Membership test of a key in one of the distance tables (Python `in`). -/
def table_mem (t : List (String × Rat)) (k : String) : Bool :=
  (t.lookup k).isSome

/-- Value lookup in a distance table; all lookups performed by the source use
keys produced by `get_highway_classification`, which are always present. -/
def table_val (t : List (String × Rat)) (k : String) : Rat :=
  (t.lookup k).getD 0

/-- `Crossroad.get_highway_classification`, translated from the source: if the
argument has no highway tag the result is "default"; otherwise the source
appends "_link" to the tag and switches to that spelling when it is a key of
the table, and finally falls back to "default" when the (possibly rewritten)
tag is not a key of the table. -/
def get_highway_classification (e : EdgeAttrs) : String :=
  match e.highway with
  | none => "default"
  | some highway =>
    let highway_link := highway ++ "_link"
    let highway1 := if table_mem max_distance_boundary_polyline highway_link then highway_link else highway
    if table_mem max_distance_boundary_polyline highway1 then highway1 else "default"

/-- Modelled from the spec: the reference normalization of a highway tag — a
tag present in the priority table maps to itself, a "_link"-suffixed variant
whose base class is in the table maps to that base class, anything else (and a
missing tag) maps to "default". -/
def spec_highway_normalization (e : EdgeAttrs) : String :=
  match e.highway with
  | none => "default"
  | some h =>
    if table_mem max_distance_boundary_polyline h then h
    else
      let cs := h.data
      if 5 ≤ cs.length ∧ cs.drop (cs.length - 5) = ['_', 'l', 'i', 'n', 'k'] then
        let base := String.mk (cs.take (cs.length - 5))
        if table_mem max_distance_boundary_polyline base then base else "default"
      else "default"

/-- The source calls `get_highway_classification` with the node pair
`(center, nb)` (a Python tuple of integer node ids) where an edge attribute
mapping is expected; the membership test `"highway" in edge` is then `False`,
so the argument behaves exactly like an attribute record with no highway tag. -/
def tuple_edge_attrs : EdgeAttrs := { highway := none, name := none }

/-- Modelled from the spec: `Region.add_node` — insert a node into the region's
member set (a set: inserting an existing member changes nothing). -/
def add_node (reg : Reg) (n : Nat) : Reg :=
  if n ∈ reg.rnodes then reg else { reg with rnodes := reg.rnodes ++ [n] }

/-- Undirected membership test of an edge in an edge list. -/
def has_pair (es : List (Nat × Nat)) (a b : Nat) : Bool :=
  decide ((a, b) ∈ es) || decide ((b, a) ∈ es)

/-- Modelled from the spec: insertion of one edge into the region's member set
(undirected, set semantics). -/
def add_edge (reg : Reg) (a b : Nat) : Reg :=
  if has_pair reg.redges a b then reg
  else { reg with redges := reg.redges ++ [(a, b)] }

/-- Modelled from the spec: `Region.add_path` — commit a candidate path into
the region by inserting all its nodes and all its consecutive edges. -/
def add_path (reg : Reg) (path : List Nat) : Reg :=
  let reg1 := path.foldl add_node reg
  (path.zip path.tail).foldl (fun r ab => add_edge r ab.1 ab.2) reg1

/-- Modelled from the spec: a node is known when some existing region claims
it; `unknown_region_node` is the negation of this test. -/
def node_claimed (regs : List Reg) (m : Nat) : Bool :=
  regs.any (fun r => decide (m ∈ r.rnodes))

/-- Modelled from the spec: an edge is known when some existing region claims
it (in either orientation); `unknown_region_edge` is the negation. -/
def edge_claimed (regs : List Reg) (a b : Nat) : Bool :=
  regs.any (fun r => has_pair r.redges a b)

/-- `Region.has_edge` of a single region, modelled from the spec: the edge is
part of the region's member set. -/
def region_has_edge (reg : Reg) (a b : Nat) : Bool :=
  has_pair reg.redges a b

/-- `getCenter` returns the first member node of the region (the seed). -/
def regCenter (reg : Reg) : Nat :=
  reg.rnodes.headD 0

/-- Modelled from the spec: `Region.is_boundary_node` — a member node lying at
the edge of the region, i.e. with at least one incident edge that the region
does not own. -/
def is_boundary_node (G : Graph) (reg : Reg) (n : Nat) : Bool :=
  decide (n ∈ reg.rnodes) && (G.nbrs n).any (fun nb => !region_has_edge reg nb n)

/-- Modelled from the spec: `Util.length` — distance along a path, the sum of
the lengths of its consecutive edges. -/
def util_length (G : Graph) (path : List Nat) : Rat :=
  (path.zip path.tail).foldl (fun acc ab => acc + G.elen ab.1 ab.2) 0

/-- `Crossroad.is_middle_path_node`: a degree-2 node not flagged by the
Reliability oracle at the requested (weak or strong) level. -/
def is_middle_path_node (G : Graph) (node : Nat) (strong : Bool) : Bool :=
  if (G.nbrs node).length ≠ 2 then false
  else if strong then !(G.sBoundary node || G.sInCrossroad node)
  else !(G.wBoundary node || G.wInCrossroad node)

/-- `Crossroad.get_next_node_along_polyline`: the first neighbour of `current`
different from the predecessor, if any. -/
def get_next_node_along_polyline (G : Graph) (current pred : Nat) : Option Nat :=
  (G.nbrs current).find? (fun n => n != pred)

/-- One polyline walk of `get_possible_paths` (either of its two `while`
loops, selected by `strong`): while the path's last node is a middle-path
node, append the next node along the polyline, stopping early when a node
claimed by a known region is reached.  A dead end (`get_next_node_along_polyline`
returns nothing) yields `none`, matching the source's early `return`.  `fuel`
bounds the iteration; callers pass more fuel than any terminating walk uses. -/
def walk (G : Graph) (regs : List Reg) (strong : Bool) : Nat → List Nat → Option (List Nat)
  | 0, path => some path
  | fuel + 1, path =>
    if is_middle_path_node G (path.getLastD 0) strong then
      match get_next_node_along_polyline G (path.getLastD 0) (path.getD (path.length - 2) 0) with
      | none => none
      | some next =>
        if node_claimed regs next then some (path ++ [next])
        else walk G regs strong fuel (path ++ [next])
    else some path

/-- `Crossroad.get_possible_paths`: the weak candidate path is always walked
first; on a dead end in the first loop the source returns the still-empty
result list.  The strong candidate is walked only when the weak endpoint is
still a strong middle-path node; a dead end there keeps the weak candidate. -/
def get_possible_paths (G : Graph) (regs : List Reg) (n1 n2 : Nat) : List (List Nat) :=
  match walk G regs false (G.nodes.length + 1) [n1, n2] with
  | none => []
  | some path =>
    if !is_middle_path_node G (path.getLastD 0) true then [path]
    else
      match walk G regs true (G.nodes.length + 1) path with
      | none => [path]
      | some path2 => [path, path2]

/-- `Crossroad.is_inner_path_by_osmdata`: every consecutive edge of the path
carries the "junction" marker. -/
def is_inner_path_by_osmdata (G : Graph) (path : List Nat) : Bool :=
  (path.zip path.tail).all (fun ab => G.junction ab.1 ab.2)

/-- `Crossroad.get_max_highway_classification_other`: scan the neighbours of
the centre other than the path's second node, keeping the classification with
the largest configured maximum distance.  The source passes the node pair
`(center, nb)` to `get_highway_classification`, so every scanned
classification is "default" (see `tuple_edge_attrs`). -/
def get_max_highway_classification_other (G : Graph) (reg : Reg) (path : List Nat) :
    Option String :=
  if reg.rnodes.length = 0 then none
  else
    let center := regCenter reg
    some ((G.nbrs center).foldl
      (fun (rv : String × Rat) nb =>
        if nb ≠ path.getD 1 0 then
          let c := get_highway_classification tuple_edge_attrs
          let v := table_val max_distance_boundary_polyline c
          if v > rv.2 then (c, v) else rv
        else rv)
      ("default", table_val max_distance_boundary_polyline "default")).1

/-- `Crossroad.get_closest_possible_biffurcation`: among the neighbours of
`point`, follow each polyline to its bifurcation and return the endpoint of a
shortest such path (`none` models the source's initial `-1` when `point` has
no neighbour). -/
def get_closest_possible_biffurcation (G : Graph) (point : Nat) : Option Nat :=
  ((G.nbrs point).foldl
    (fun (st : Option Nat × Option Rat) nb =>
      let path := G.pathToBiff point nb
      let l := util_length G path
      match st.2 with
      | none => (some (path.getLastD 0), some l)
      | some len => if l < len then (some (path.getLastD 0), some l) else st)
    (none, none)).1

/-- `Crossroad.is_correct_inner_path`, value `none` standing for the source
falling off the end of the function (Python `None`).  The `none` case of
`get_max_highway_classification_other` (empty region) cannot occur when called
from `propagate`, which adds the seed first; it is mapped to "default". -/
def is_correct_inner_path (G : Graph) (reg : Reg) (path : List Nat) : Option Bool :=
  if path.length < 2 then some false
  else if path.headD 0 = path.getLastD 0 then some false
  else if is_inner_path_by_osmdata G path then some true
  else
    let first := path.headD 0
    let last := path.getLastD 0
    if G.wInCrossroad first && G.wBoundary last then
      let d := util_length G path
      let r : Rat := if 4 < (G.nbrs first).length then 2 else 1
      let highway := (get_max_highway_classification_other G reg path).getD "default"
      if d < table_val min_distance_boundary_polyline highway * r ∨
          (d < table_val max_distance_boundary_polyline highway * r ∧
            get_closest_possible_biffurcation G last = some first) then
        some true
      else some false
    else none

/-- Python truthiness of the tri-valued result of `is_correct_inner_path`:
both `False` and `None` are falsy. -/
def py_truthy : Option Bool → Bool
  | some b => b
  | none => false

/-- The inner loop of `propagate`: try the candidate paths in the given order
and commit the first one accepted by `is_correct_inner_path`. -/
def try_paths (G : Graph) (reg : Reg) : List (List Nat) → Reg
  | [] => reg
  | p :: rest =>
    if py_truthy (is_correct_inner_path G reg p) then add_path reg p
    else try_paths G reg rest

/-- `Crossroad.propagate`: add the seed, then for every neighbour whose edge
is still unknown, compute the candidate paths and try them from the longest
(strong) candidate down to the weak one. -/
def propagate (G : Graph) (others : List Reg) (reg0 : Reg) (n : Nat) : Reg :=
  let reg := add_node reg0 n
  (G.nbrs n).foldl
    (fun reg nb =>
      if !edge_claimed (others ++ [reg]) n nb then
        try_paths G reg (get_possible_paths G (others ++ [reg]) n nb).reverse
      else reg)
    reg

/-- `Crossroad.get_branch_description_from_edge`: the angle is the bearing
from the centre to the second component of the edge pair, the name is read
from the edge's attributes. -/
def get_branch_description_from_edge (G : Graph) (reg : Reg) (e : Nat × Nat) :
    BranchDescription :=
  { angle := G.bearing (regCenter reg) e.2, name := G.ename e.1 e.2 }

/-- `Crossroad.get_branches_description_from_node`: one branch per neighbour
`nb` of the boundary node whose edge `(nb, border)` the region owns
(`self.has_edge((nb, border))` in the source). -/
def get_branches_description_from_node (G : Graph) (reg : Reg) (border : Nat) :
    List BranchDescription :=
  ((G.nbrs border).filter (fun nb => region_has_edge reg nb border)).map
    (fun nb => get_branch_description_from_edge G reg (nb, border))

/-- Modelled from the spec: the branch extraction the specification describes
for a boundary node — one branch per externally-incident edge (an edge the
region does not own), with the angle computed as the bearing from the centre
to that edge's far endpoint and the name copied from the edge. -/
def spec_branches_from_node (G : Graph) (reg : Reg) (border : Nat) :
    List BranchDescription :=
  ((G.nbrs border).filter (fun nb => !region_has_edge reg nb border)).map
    (fun nb => { angle := G.bearing (regCenter reg) nb, name := G.ename nb border })

/-- `Crossroad.get_radius`: with no boundary node, the largest configured
minimum distance over the centre's incident classifications (all "default",
see `tuple_edge_attrs`); otherwise the mean distance from the centre to the
boundary nodes. -/
def get_radius (G : Graph) (reg : Reg) : Rat :=
  let borders := reg.rnodes.filter (fun n => is_boundary_node G reg n)
  let center := regCenter reg
  if borders.length = 0 then
    (G.nbrs center).foldl
      (fun radius _nb =>
        let c := get_highway_classification tuple_edge_attrs
        let v := table_val min_distance_boundary_polyline c
        if v > radius then v else radius)
      0
  else ((borders.map (fun b => G.dist center b)).foldl (· + ·) 0) / (borders.length : Rat)

/-- `Crossroad.get_open_paths`: for every neighbour of `point` whose edge the
region does not own, the external path to the next bifurcation. -/
def get_open_paths (G : Graph) (reg : Reg) (point : Nat) (radius : Rat) :
    List (List Nat) :=
  ((G.nbrs point).filter (fun nb => !region_has_edge reg nb point)).map
    (fun nb => G.pathToBiffR point nb radius)

/-- `Crossroad.build_branches_description`: concatenate, over all boundary
nodes, the branches from that node; when the boundary node is the centre
itself, derive one branch per open path from its last edge instead. -/
def build_branches_description (G : Graph) (reg : Reg) : List BranchDescription :=
  let center := regCenter reg
  let radius := get_radius G reg
  let borders := reg.rnodes.filter (fun n => is_boundary_node G reg n)
  borders.flatMap
    (fun b =>
      if b ≠ center then get_branches_description_from_node G reg b
      else (get_open_paths G reg center radius).map
        (fun ob =>
          get_branch_description_from_edge G reg
            (ob.getD (ob.length - 2) 0, ob.getD (ob.length - 1) 0)))

/-- A finalised `Crossroad`: its region together with the branch descriptions
computed by `build_branches_description`. -/
structure Crossroad where
  reg : Reg
  branches : List BranchDescription
deriving DecidableEq, Repr, Inhabited

/-- `Crossroad.getCenter`: the first member node (the seed). -/
def Crossroad.getCenter (c : Crossroad) : Nat :=
  regCenter c.reg

/-- Construction of one `Crossroad` (its `__init__`): grow the region from the
seed by `propagate`, then compute the branch descriptions. -/
def mkCrossroad (G : Graph) (others : List Reg) (rid : Nat) (seed : Nat) : Crossroad :=
  let reg := propagate G others { rid := rid, rnodes := [], redges := [] } seed
  { reg := reg, branches := build_branches_description G reg }

/-- `Crossroad.is_reliable_crossroad_node`: the node, or one of its incident
edges, is weakly marked as in-crossroad by the Reliability oracle. -/
def is_reliable_crossroad_node (G : Graph) (n : Nat) : Bool :=
  G.wInCrossroad n || (G.nbrs n).any (fun nb => G.wInCrossroadEdge nb n)

/-- `Crossroad.is_straight_crossing`: no member node has more than two
neighbours. -/
def is_straight_crossing (G : Graph) (reg : Reg) : Bool :=
  reg.rnodes.all (fun n => !(2 < (G.nbrs n).length))

/-- One iteration of the scan in `Crossroad.build_crossroads`: state is the
list of committed regions, the kept crossroads, and the next region id.  A
grown region that is a straight crossing is cleared (its claims released, so
the committed regions are unchanged); otherwise it is kept. -/
def build_step (G : Graph) (st : List Reg × List Crossroad × Nat) (n : Nat) :
    List Reg × List Crossroad × Nat :=
  let (regs, crs, nid) := st
  if !node_claimed regs n then
    if is_reliable_crossroad_node G n then
      let c := mkCrossroad G regs nid n
      if is_straight_crossing G c.reg then (regs, crs, nid + 1)
      else (regs ++ [c.reg], crs ++ [c], nid + 1)
    else st
  else st

/-- `Crossroad.build_crossroads`: scan every node of the graph in order,
seeding a crossroad at each reliable still-unknown node, and keep the regions
that are not straight crossings. -/
def build_crossroads (G : Graph) : List Crossroad :=
  (G.nodes.foldl (build_step G) ([], [], 0)).2.1

/-- `Crossroad.get_crossroads_in_neighborhood`: the other crossroads whose
centre lies within four radii of this crossroad's centre. -/
def get_crossroads_in_neighborhood (G : Graph) (self : Crossroad)
    (crossroads : List Crossroad) : List Crossroad :=
  let center := self.getCenter
  let radius := get_radius G self.reg * 4
  crossroads.filter
    (fun c => decide (c.reg.rid ≠ self.reg.rid) && decide (G.dist center c.getCenter < radius))

/-- `Crossroad.in_same_cluster`: some branch of each crossroad is similar to a
branch of the other and orthogonal to the bearing between the two centres. -/
def in_same_cluster (G : Graph) (a b : Crossroad) : Bool :=
  let angle := G.bearing a.getCenter b.getCenter
  a.branches.any (fun b1 => b.branches.any (fun b2 => G.isSimilar b1 b2 && G.isOrthogonal b1 angle))

/-- State of the cluster loop of `get_clusters` while one cluster is being
collected: the clusters already retained, the visited crossroad ids, the
cluster under construction, and the number of merge diagnostics printed so far
(the source's `print` is modelled as this counter). -/
structure ClState where
  result : List (List Crossroad)
  visited : List Nat
  cluster : List Crossroad
  errors : Nat
deriving DecidableEq, Repr, Inhabited

/-- The body of the neighbourhood loop of `Crossroad.get_clusters` for one
candidate `cr`: an unvisited match joins the current cluster; a visited match
triggers the merge logic — when exactly one retained cluster claims `cr` it is
absorbed into the current cluster and removed, otherwise a diagnostic is
counted and nothing is merged. -/
def cluster_inner_step (G : Graph) (crossroad : Crossroad) (st : ClState)
    (cr : Crossroad) : ClState :=
  if in_same_cluster G crossroad cr then
    if !st.visited.contains cr.reg.rid then
      { st with visited := st.visited ++ [cr.reg.rid], cluster := st.cluster ++ [cr] }
    else
      let other := st.result.filter (fun c => c.contains cr)
      if other.length ≠ 1 then { st with errors := st.errors + 1 }
      else
        { st with
          cluster := st.cluster ++ other.headD [],
          result := st.result.filter (fun c => !c.contains cr) }
  else st

/-- The body of the outer loop of `Crossroad.get_clusters` for one seed
crossroad: skip it when already visited, otherwise collect its cluster over
its neighbourhood and retain the cluster when it has more than one member. -/
def cluster_outer_step (G : Graph) (crossroads : List Crossroad)
    (st : List (List Crossroad) × List Nat × Nat) (crossroad : Crossroad) :
    List (List Crossroad) × List Nat × Nat :=
  let (result, visited, errors) := st
  if visited.contains crossroad.reg.rid then st
  else
    let st1 : ClState :=
      { result := result, visited := visited ++ [crossroad.reg.rid],
        cluster := [crossroad], errors := errors }
    let st2 := (get_crossroads_in_neighborhood G crossroad crossroads).foldl
      (cluster_inner_step G crossroad) st1
    (if 1 < st2.cluster.length then st2.result ++ [st2.cluster] else st2.result,
      st2.visited, st2.errors)

/-- `Crossroad.get_clusters`, returning the retained clusters together with
the number of merge diagnostics emitted. -/
def get_clusters (G : Graph) (crossroads : List Crossroad) :
    List (List Crossroad) × Nat :=
  let st := crossroads.foldl (cluster_outer_step G crossroads) ([], [], 0)
  (st.1, st.2.2)

/-- Modelled from the spec: the view of a `Region` that `CrossroadConnections`
consumes — its unique id, its kind (`is_crossroad` / `is_link`), its member
nodes, `max_branch_width()` and `get_path(fromNodes, toNodes)` returning a
path inside the region and its length (the latter two are external `Link`
facilities, kept as oracle fields). -/
structure CRegion where
  id : Int
  isCrossroad : Bool
  isLink : Bool
  cnodes : List Nat
  maxBranchWidth : Rat
  getPath : List Nat → List Nat → List Nat × Rat

instance : Inhabited CRegion :=
  ⟨{ id := 0, isCrossroad := false, isLink := false, cnodes := [],
     maxBranchWidth := 0, getPath := fun _ _ => ([], 0) }⟩

/-- Executable maximum of two rationals (Python `max([a, b])`). -/
def rat_max (a b : Rat) : Rat :=
  if a < b then b else a

/-- Lookup in an insertion-ordered association list (a Python `dict`). -/
def alist_get {κ α : Type} [DecidableEq κ] (m : List (κ × α)) (k : κ) : Option α :=
  (m.find? (fun p => decide (p.1 = k))).map Prod.snd

/-- Update of an insertion-ordered association list: an existing key is
updated in place, a new key is appended at the end with `f default`, matching
the `if not k in d: d[k] = default` idiom followed by a mutation. -/
def alist_upd {κ α : Type} [DecidableEq κ] (m : List (κ × α)) (k : κ) (d : α)
    (f : α → α) : List (κ × α) :=
  if (m.find? (fun p => decide (p.1 = k))).isSome then
    m.map (fun p => if p.1 = k then (p.1, f p.2) else p)
  else m ++ [(k, f d)]

/-- The crossroad region ids, in region order (`init_structure`). -/
def cc_crossroads (regions : List (Nat × CRegion)) : List Nat :=
  (regions.filter (fun p => p.2.isCrossroad)).map Prod.fst

/-- The link region ids, in region order (`init_structure`; `elif is_link`). -/
def cc_links (regions : List (Nat × CRegion)) : List Nat :=
  (regions.filter (fun p => !p.2.isCrossroad && p.2.isLink)).map Prod.fst

/-- `regionsByNode`: for every node, the list of region ids claiming it, built
by `add_node_region` in region order. -/
def cc_regionsByNode (regions : List (Nat × CRegion)) : List (Nat × List Nat) :=
  regions.foldl
    (fun m p => p.2.cnodes.foldl (fun m n => alist_upd m n [] (fun l => l ++ [p.1])) m)
    []

/-- `get_typology`: 1 for a crossroad region, 2 for a link, 0 otherwise. -/
def cc_typology (crossroads links : List Nat) (rid : Nat) : Nat :=
  if crossroads.contains rid then 1 else if links.contains rid then 2 else 0

/-- `add_adjacencies`: ensure `r1` has an adjacency entry, then record the
shared node against every co-claiming region of a different typology. -/
def cc_add_adjacencies (crossroads links : List Nat)
    (adj : List (Nat × List (Nat × List Nat))) (r1 node : Nat) (rs : List Nat) :
    List (Nat × List (Nat × List Nat)) :=
  let adj1 := if (alist_get adj r1).isSome then adj else adj ++ [(r1, [])]
  rs.foldl
    (fun adj r2 =>
      if r2 ≠ r1 ∧ cc_typology crossroads links r1 ≠ cc_typology crossroads links r2 then
        alist_upd adj r1 [] (fun d => alist_upd d r2 [] (fun l => l ++ [node]))
      else adj)
    adj1

/-- The full adjacency structure of `init_structure`: for every indexed node,
for every region claiming it, record its adjacencies. -/
def cc_adjacencies (crossroads links : List Nat) (rbn : List (Nat × List Nat)) :
    List (Nat × List (Nat × List Nat)) :=
  rbn.foldl
    (fun adj p => p.2.foldl (fun adj r1 => cc_add_adjacencies crossroads links adj r1 p.1 p.2) adj)
    []

/-- The adjacent region ids of `rid`, in insertion order (the keys of
`self.adjacencies[rid]`). -/
def cc_adj_keys (adj : List (Nat × List (Nat × List Nat))) (rid : Nat) : List Nat :=
  ((alist_get adj rid).getD []).map Prod.fst

/-- `get_path_in_link`: the nodes of link `l` shared with each crossroad, and
the link's path between the two sets. -/
def cc_get_path_in_link (regions : List (Nat × CRegion)) (rbn : List (Nat × List Nat))
    (l cr1 cr2 : Nat) : List Nat × Rat :=
  let lr := (alist_get regions l).getD default
  let cr1n := lr.cnodes.filter (fun n => ((alist_get rbn n).getD []).contains cr1)
  let cr2n := lr.cnodes.filter (fun n => ((alist_get rbn n).getD []).contains cr2)
  lr.getPath cr1n cr2n

/-- `compute_initial_connections`: for every crossroad, every adjacent link
and every crossroad reachable from that link with a strictly larger region id,
keep the triple when the path inside the link is shorter than the larger
`max_branch_width` scaled by the connection threshold. -/
def cc_initial_connections (regions : List (Nat × CRegion)) (crossroads : List Nat)
    (adj : List (Nat × List (Nat × List Nat))) (rbn : List (Nat × List Nat))
    (threshold : Rat) : List (Nat × Nat × (List Nat × Nat)) :=
  crossroads.flatMap
    (fun cr =>
      (cc_adj_keys adj cr).flatMap
        (fun l =>
          (cc_adj_keys adj l).filterMap
            (fun cr2 =>
              let rcr := (alist_get regions cr).getD default
              let rcr2 := (alist_get regions cr2).getD default
              if rcr.id < rcr2.id then
                let pd := cc_get_path_in_link regions rbn l cr cr2
                if pd.2 < rat_max rcr.maxBranchWidth rcr2.maxBranchWidth * threshold then
                  some (cr, cr2, (pd.1, l))
                else none
              else none)))

/-- The merge loop of `compute_connected_crossroads`: group the initial
triples by their crossroad pair, accumulating the `(path, link)` evidence in
encounter order. -/
def cc_merge (cs : List (Nat × Nat × (List Nat × Nat))) :
    List (Nat × Nat × List (List Nat × Nat)) :=
  (cs.foldl (fun m c => alist_upd m (c.1, c.2.1) [] (fun ev => ev ++ [c.2.2])) []).map
    (fun p => (p.1.1, p.1.2, p.2))

/-- The state of a `CrossroadConnections` instance after `init_structure`. -/
structure CC where
  regions : List (Nat × CRegion)
  threshold : Rat
  crossroads : List Nat
  links : List Nat
  regionsByNode : List (Nat × List Nat)
  adjacencies : List (Nat × List (Nat × List Nat))
  connected_crossroads : List (Nat × Nat × List (List Nat × Nat))

/-- `CrossroadConnections.__init__` / `init_structure`: classify the regions,
index the nodes, build the adjacencies and compute the merged connections. -/
def mkCC (regions : List (Nat × CRegion)) (threshold : Rat) : CC :=
  let crossroads := cc_crossroads regions
  let links := cc_links regions
  let rbn := cc_regionsByNode regions
  let adj := cc_adjacencies crossroads links rbn
  let init := cc_initial_connections regions crossroads adj rbn threshold
  { regions := regions, threshold := threshold, crossroads := crossroads,
    links := links, regionsByNode := rbn, adjacencies := adj,
    connected_crossroads := cc_merge init }

/-- `get_pairs`: only the connections supported by more than one link. -/
def get_pairs (cc : CC) : List (Nat × Nat × List (List Nat × Nat)) :=
  cc.connected_crossroads.filter (fun c => 1 < c.2.2.length)

/-- One step of a cycle walk: a crossroad id and the link evidence that led to
it (`(path, link-id)` pairs). -/
abbrev CycStep := Nat × List (List Nat × Nat)

/-- A (partial or closed) walk over the crossroad connection graph. -/
abbrev Cyc := List CycStep

/-- `get_connected_crossroads`: the connections touching `cr`, each reported
from `cr`'s point of view. -/
def get_connected_crossroads (cc : CC) (cr : Nat) : List CycStep :=
  cc.connected_crossroads.foldl
    (fun res c =>
      if c.1 = cr then res ++ [(c.2.1, c.2.2)]
      else if c.2.1 = cr then res ++ [(c.1, c.2.2)]
      else res)
    []

/-- `contains_link`: some link of the proposed next step already appears in
the walk's evidence. -/
def contains_link (nextpathlinks : List (List Nat × Nat)) (path : Cyc) : Bool :=
  let n_links := nextpathlinks.map Prod.snd
  path.any (fun p => p.2.any (fun l => n_links.contains l.2))

/-- Extension of one live walk by every admissible next connection: the
source's condition `len(p) == 1 or p[-2][0] != next[0] and not contains_link`
(Python precedence: the `and` binds tighter).  A walk returning to its start
is emitted as a cycle, any other extension stays live. -/
def cycle_extend (cc : CC) (p : Cyc) (acc : List Cyc × List Cyc) :
    List Cyc × List Cyc :=
  (get_connected_crossroads cc (p.getLastD (0, [])).1).foldl
    (fun acc next =>
      if p.length = 1 ∨
          ((p.getD (p.length - 2) (0, [])).1 ≠ next.1 ∧ !contains_link next.2 p) then
        if next.1 = (p.headD (0, [])).1 then (acc.1, acc.2 ++ [p ++ [next]])
        else (acc.1 ++ [p ++ [next]], acc.2)
      else acc)
    acc

/-- `get_cycles_from_crossroad`: bounded-depth expansion of all walks starting
at `cr`; the state is the pair (live walks, emitted cycles). -/
def get_cycles_from_crossroad (cc : CC) (cr : Nat) (maxLength : Nat) : List Cyc :=
  ((List.range maxLength).foldl
    (fun st _ => st.1.foldl (fun acc p => cycle_extend cc p acc) ([], st.2))
    ([[(cr, [])]], [])).2

/-- The crossroad-id set of a cycle (`set([e[0] for e in c])`). -/
def cycle_idset (c : Cyc) : Finset Nat :=
  (c.map Prod.fst).toFinset

/-- One step of `get_unique_cycles`: keep the cycle only when its id set has
not been seen, remembering the sets in encounter order. -/
def unique_step (st : List Cyc × List (Finset Nat)) (c : Cyc) :
    List Cyc × List (Finset Nat) :=
  if cycle_idset c ∈ st.2 then st else (st.1 ++ [c], st.2 ++ [cycle_idset c])

/-- `get_unique_cycles`: deduplicate the collected cycles by their crossroad
id set, keeping only the first occurrence of each set. -/
def get_unique_cycles (cycles : List Cyc) : List Cyc :=
  (cycles.foldl unique_step ([], [])).1

/-- `get_cycles`: collect the cycles from every crossroad and deduplicate. -/
def get_cycles (cc : CC) (maxLength : Nat) : List Cyc :=
  get_unique_cycles (cc.crossroads.flatMap (fun c => get_cycles_from_crossroad cc c maxLength))

/-- A concrete road network: a chain 0–1–2–3–4 whose edges all carry the
"junction" marker, with extra leaves 5, 6 at node 0 and 7, 8 at node 4.  The
Reliability oracle weakly marks nodes 0 and 4 as in-crossroad and node 2 as a
(weak and strong) boundary. -/
def exG1 : Graph where
  nodes := [0, 1, 2, 3, 4, 5, 6, 7, 8]
  nbrs := fun n =>
    match n with
    | 0 => [1, 5, 6]
    | 1 => [0, 2]
    | 2 => [1, 3]
    | 3 => [2, 4]
    | 4 => [3, 7, 8]
    | 5 => [0]
    | 6 => [0]
    | 7 => [4]
    | 8 => [4]
    | _ => []
  junction := fun a b =>
    decide ((min a b, max a b) ∈ [((0 : Nat), (1 : Nat)), (1, 2), (2, 3), (3, 4)])
  ename := fun _ _ => none
  elen := fun _ _ => 1
  wBoundary := fun n => n == 2
  sBoundary := fun n => n == 2
  wInCrossroad := fun n => n == 0 || n == 4
  sInCrossroad := fun _ => false
  wInCrossroadEdge := fun _ _ => false
  bearing := fun _ _ => 0
  dist := fun _ _ => 0
  pathToBiff := fun _ _ => []
  pathToBiffR := fun _ _ _ => []
  isSimilar := fun _ _ => true
  isOrthogonal := fun _ _ => true

/-- A concrete three-node path 0–1–2 with named edges: "rue A" on 0–1 and
"rue B" on 1–2. -/
def exG2 : Graph where
  nodes := [0, 1, 2]
  nbrs := fun n => match n with | 0 => [1] | 1 => [0, 2] | 2 => [1] | _ => []
  junction := fun _ _ => false
  ename := fun a b =>
    if (min a b, max a b) = ((0 : Nat), (1 : Nat)) then some "rue A"
    else if (min a b, max a b) = ((1 : Nat), (2 : Nat)) then some "rue B"
    else none
  elen := fun _ _ => 1
  wBoundary := fun _ => false
  sBoundary := fun _ => false
  wInCrossroad := fun _ => false
  sInCrossroad := fun _ => false
  wInCrossroadEdge := fun _ _ => false
  bearing := fun a b =>
    if (a, b) = ((0 : Nat), (1 : Nat)) then 90
    else if (a, b) = ((0 : Nat), (2 : Nat)) then 180
    else 0
  dist := fun _ _ => 7
  pathToBiff := fun _ _ => []
  pathToBiffR := fun _ _ _ => []
  isSimilar := fun _ _ => true
  isOrthogonal := fun _ _ => true

/-- A region over `exG2` owning nodes 0, 1 and the edge between them; node 1
is its boundary node and node 0 its centre. -/
def exReg2 : Reg := { rid := 0, rnodes := [0, 1], redges := [(0, 1)] }

/-- Two crossroad regions (ids 1 and 2, one node each) joined by a single
link region (id 3) through the shared nodes 10 and 11; the path inside the
link has length `d`.  Both crossroads have `max_branch_width()` 20. -/
def c4_regions (d : Rat) : List (Nat × CRegion) :=
  [(1, { id := 1, isCrossroad := true, isLink := false, cnodes := [10],
         maxBranchWidth := 20, getPath := fun _ _ => ([], 0) }),
   (2, { id := 2, isCrossroad := true, isLink := false, cnodes := [11],
         maxBranchWidth := 20, getPath := fun _ _ => ([10, 11], d) }),
   (3, { id := 3, isCrossroad := false, isLink := true, cnodes := [10, 11],
         maxBranchWidth := 0, getPath := fun _ _ => ([10, 11], d) })]

/-- Three crossroad regions (ids 1, 2, 3) pairwise joined by three link
regions (ids 4, 5, 6) with short internal paths: a triangle of crossroads. -/
def tri_regions : List (Nat × CRegion) :=
  [(1, { id := 1, isCrossroad := true, isLink := false, cnodes := [10],
         maxBranchWidth := 20, getPath := fun _ _ => ([], 0) }),
   (2, { id := 2, isCrossroad := true, isLink := false, cnodes := [20],
         maxBranchWidth := 20, getPath := fun _ _ => ([], 0) }),
   (3, { id := 3, isCrossroad := true, isLink := false, cnodes := [30],
         maxBranchWidth := 20, getPath := fun _ _ => ([], 0) }),
   (4, { id := 4, isCrossroad := false, isLink := true, cnodes := [10, 20],
         maxBranchWidth := 0, getPath := fun _ _ => ([10, 20], 5) }),
   (5, { id := 5, isCrossroad := false, isLink := true, cnodes := [20, 30],
         maxBranchWidth := 0, getPath := fun _ _ => ([20, 30], 5) }),
   (6, { id := 6, isCrossroad := false, isLink := true, cnodes := [10, 30],
         maxBranchWidth := 0, getPath := fun _ _ => ([10, 30], 5) })]

/-- A trivial graph whose BranchDescription oracles hold everywhere, so that
any two crossroads with a branch are in the same cluster. -/
def exG9 : Graph where
  nodes := []
  nbrs := fun _ => []
  junction := fun _ _ => false
  ename := fun _ _ => none
  elen := fun _ _ => 1
  wBoundary := fun _ => false
  sBoundary := fun _ => false
  wInCrossroad := fun _ => false
  sInCrossroad := fun _ => false
  wInCrossroadEdge := fun _ _ => false
  bearing := fun _ _ => 0
  dist := fun _ _ => 0
  pathToBiff := fun _ _ => []
  pathToBiffR := fun _ _ _ => []
  isSimilar := fun _ _ => true
  isOrthogonal := fun _ _ => true

/-- A concrete crossroad with id 10. -/
def crA : Crossroad :=
  { reg := { rid := 10, rnodes := [100], redges := [] },
    branches := [{ angle := 0, name := none }] }

/-- A concrete crossroad with id 11. -/
def crB : Crossroad :=
  { reg := { rid := 11, rnodes := [101], redges := [] },
    branches := [{ angle := 0, name := none }] }

/-- A concrete crossroad with id 12, about to be claimed by two clusters. -/
def crX : Crossroad :=
  { reg := { rid := 12, rnodes := [102], redges := [] },
    branches := [{ angle := 0, name := none }] }

/-- A concrete crossroad with id 13, currently collecting its cluster. -/
def crCur : Crossroad :=
  { reg := { rid := 13, rnodes := [103], redges := [] },
    branches := [{ angle := 0, name := none }] }

/-- A cluster-loop state in which two retained clusters both claim `crX`,
every id has been visited, and the current cluster holds only `crCur`. -/
def st9 : ClState :=
  { result := [[crA, crX], [crB, crX]], visited := [10, 11, 12, 13],
    cluster := [crCur], errors := 0 }

/-- Region growth only ever appends member nodes. -/
def reg_grows (r r' : Reg) : Prop :=
  ∃ t, r'.rnodes = r.rnodes ++ t

/-- The loop invariant of `build_crossroads`: every kept crossroad's nodes are
claimed by the committed regions, each crossroad contains its centre, centres
are pairwise distinct, and no kept crossroad is a straight crossing. -/
def build_inv (G : Graph) (st : List Reg × List Crossroad × Nat) : Prop :=
  (∀ c ∈ st.2.1, ∀ m ∈ c.reg.rnodes, node_claimed st.1 m = true) ∧
  (∀ c ∈ st.2.1, c.getCenter ∈ c.reg.rnodes) ∧
  st.2.1.Pairwise (fun a b => a.getCenter ≠ b.getCenter) ∧
  (∀ c ∈ st.2.1, is_straight_crossing G c.reg = false)

/-- The region id the merge comparison of `compute_initial_connections` reads
for a stored key (`self.regions[cr].id`). -/
def region_id_of (regions : List (Nat × CRegion)) (k : Nat) : Int :=
  ((alist_get regions k).getD default).id

set_option maxRecDepth 10000

/-- C3: `get_highway_classification` does not implement the reference
normalization.  The source appends "_link" to the tag instead of stripping it,
and the distance table contains no "_link" key, so that branch is dead code: a
"_link"-suffixed tag such as "primary_link" falls through to "default" where
the reference normalization (and the claim) produce the base class "primary".
Tags that are table keys, and the missing tag, do agree with the reference. -/
theorem c3_highway_classification_divergence :
    get_highway_classification { highway := some "primary_link", name := none } = "default" ∧
    spec_highway_normalization { highway := some "primary_link", name := none } = "primary" ∧
    get_highway_classification { highway := some "primary_link", name := none } ≠
      spec_highway_normalization { highway := some "primary_link", name := none } ∧
    get_highway_classification { highway := some "primary", name := none } = "primary" ∧
    get_highway_classification { highway := some "unknown_tag", name := none } = "default" ∧
    get_highway_classification { highway := none, name := none } = "default" := by
  refine ⟨rfl, rfl, by decide, rfl, rfl, rfl⟩

/-- C5: a candidate path with at least two nodes that does not return to its
start and whose edges all carry the "junction" marker is accepted by
`is_correct_inner_path`, whatever the graph distances and thresholds are. -/
theorem c5_junction_path_always_accepted (G : Graph) (reg : Reg) (path : List Nat)
    (h1 : 2 ≤ path.length) (h2 : path.headD 0 ≠ path.getLastD 0)
    (h3 : is_inner_path_by_osmdata G path = true) :
    is_correct_inner_path G reg path = some true := by
  have hlen : ¬ path.length < 2 := by omega
  simp only [is_correct_inner_path, if_neg hlen, if_neg h2, h3, if_true]

/-- Witness for C5 on a concrete junction-tagged path of `exG1`. -/
theorem c5_witness :
    2 ≤ ([0, 1] : List Nat).length ∧
    is_correct_inner_path exG1 { rid := 0, rnodes := [], redges := [] } [0, 1] = some true :=
  ⟨by decide,
    c5_junction_path_always_accepted exG1 { rid := 0, rnodes := [], redges := [] } [0, 1]
      (by decide) (by decide) (by decide)⟩

/-- C10: a path of at least two nodes that is not a loop, whose edges do not
all carry the "junction" marker, and whose first node is not weakly
in-crossroad or whose last node is not weakly a boundary, makes
`is_correct_inner_path` fall off the end of the function (`none`), and the
path-trying loop of `propagate` skips such a path without committing it. -/
theorem c10_fallthrough_is_rejection (G : Graph) (reg : Reg) (path : List Nat)
    (h1 : 2 ≤ path.length) (h2 : path.headD 0 ≠ path.getLastD 0)
    (h3 : is_inner_path_by_osmdata G path = false)
    (h4 : G.wInCrossroad (path.headD 0) = false ∨ G.wBoundary (path.getLastD 0) = false) :
    is_correct_inner_path G reg path = none ∧
    ∀ rest, try_paths G reg (path :: rest) = try_paths G reg rest := by
  have hlen : ¬ path.length < 2 := by omega
  have h4' : G.wInCrossroad (path.head?.getD 0) = false ∨
      G.wBoundary (path.getLast?.getD 0) = false := by
    simpa [List.headD_eq_head?, List.getLastD_eq_getLast?] using h4
  have hnone : is_correct_inner_path G reg path = none := by
    simp only [is_correct_inner_path, if_neg hlen, if_neg h2, h3, Bool.false_eq_true, if_false]
    rcases h4' with h | h <;> simp [h]
  refine ⟨hnone, fun rest => ?_⟩
  simp [try_paths, hnone, py_truthy]

/-- Witness for C10 on a concrete untagged path of `exG2`. -/
theorem c10_witness :
    is_inner_path_by_osmdata exG2 [0, 1] = false ∧
    is_correct_inner_path exG2 { rid := 0, rnodes := [0], redges := [] } [0, 1] = none ∧
    try_paths exG2 { rid := 0, rnodes := [0], redges := [] } [[0, 1]] =
      try_paths exG2 { rid := 0, rnodes := [0], redges := [] } [] :=
  ⟨by decide,
    (c10_fallthrough_is_rejection exG2 { rid := 0, rnodes := [0], redges := [] } [0, 1]
      (by decide) (by decide) (by decide) (Or.inl (by decide))).1,
    (c10_fallthrough_is_rejection exG2 { rid := 0, rnodes := [0], redges := [] } [0, 1]
      (by decide) (by decide) (by decide) (Or.inl (by decide))).2 []⟩

/-- Counterexample to C2: in `exG2`/`exReg2` the boundary node 1 (distinct
from the centre 0) has one region-owned edge (towards 0, named "rue A") and
one external edge (towards 2, named "rue B").  The source derives the branch
from the region-owned edge with the bearing towards the boundary node itself,
not — as the claim states — from the external edge with the bearing towards
its far endpoint. -/
theorem c2_counterexample :
    is_boundary_node exG2 exReg2 1 = true ∧
    (1 : Nat) ≠ regCenter exReg2 ∧
    get_branches_description_from_node exG2 exReg2 1 =
      [{ angle := 90, name := some "rue A" }] ∧
    spec_branches_from_node exG2 exReg2 1 =
      [{ angle := 180, name := some "rue B" }] ∧
    build_branches_description exG2 exReg2 = [{ angle := 90, name := some "rue A" }] ∧
    get_branches_description_from_node exG2 exReg2 1 ≠ spec_branches_from_node exG2 exReg2 1 := by
  refine ⟨by decide, by decide, by decide, by decide, by decide, by decide⟩

/-- C2 as amended: for every node `b`, `get_branches_description_from_node`
produces exactly one branch per edge incident to `b` that IS part of the
region, whose angle is the bearing from the crossroad centre to `b` itself
and whose name is copied from that edge's road-name attribute; for a boundary
node other than the centre these branches all appear in the output of
`build_branches_description`. -/
theorem c2_amended_branch_description (G : Graph) (reg : Reg) (b : Nat) :
    (get_branches_description_from_node G reg b).length =
      ((G.nbrs b).filter (fun nb => region_has_edge reg nb b)).length ∧
    (∀ br : BranchDescription,
      br ∈ get_branches_description_from_node G reg b ↔
        ∃ nb, nb ∈ G.nbrs b ∧ region_has_edge reg nb b = true ∧
          br = { angle := G.bearing (regCenter reg) b, name := G.ename nb b }) ∧
    (b ∈ reg.rnodes → is_boundary_node G reg b = true → b ≠ regCenter reg →
      ∀ br ∈ get_branches_description_from_node G reg b,
        br ∈ build_branches_description G reg) := by
  refine ⟨by simp [get_branches_description_from_node], ?_, ?_⟩
  · intro br
    simp only [get_branches_description_from_node, List.mem_map, List.mem_filter,
      get_branch_description_from_edge]
    constructor
    · rintro ⟨nb, ⟨hnb, he⟩, rfl⟩
      exact ⟨nb, hnb, he, rfl⟩
    · rintro ⟨nb, hnb, he, rfl⟩
      exact ⟨nb, ⟨hnb, he⟩, rfl⟩
  · intro hmem hbd hne br hbr
    simp only [build_branches_description]
    exact List.mem_flatMap.2
      ⟨b, List.mem_filter.2 ⟨hmem, hbd⟩, by rw [if_pos hne]; exact hbr⟩

/-- Witness for C2 as amended, on the concrete region `exReg2`. -/
theorem c2_witness :
    (1 ∈ exReg2.rnodes ∧ is_boundary_node exG2 exReg2 1 = true ∧
      (1 : Nat) ≠ regCenter exReg2) ∧
    { angle := (90 : Rat), name := some "rue A" } ∈ build_branches_description exG2 exReg2 :=
  ⟨⟨by decide, by decide, by decide⟩,
    (c2_amended_branch_description exG2 exReg2 1).2.2 (by decide) (by decide) (by decide)
      { angle := 90, name := some "rue A" } (by decide)⟩

/-- Counterexample to C4: two crossroads joined by exactly one link whose
internal path (length 10) is well below
`max(max_branch_width, max_branch_width) * connection_threshold = 40`: the
merged connection list holds exactly one Connection for the pair, yet
`get_pairs` — which keeps only multiply-evidenced pairs — reports nothing. -/
theorem c4_counterexample :
    (10 : Rat) < rat_max 20 20 * 2 ∧
    (mkCC (c4_regions 10) 2).connected_crossroads = [(1, 2, [([10, 11], 3)])] ∧
    get_pairs (mkCC (c4_regions 10) 2) = [] ∧
    (get_pairs (mkCC (c4_regions 10) 2)).length ≠ 1 := by
  refine ⟨by decide, by decide, by decide, by decide⟩

/-- C4 as amended: with a single sufficiently short link the pair appears
exactly once in the merged `connected_crossroads` list (but not in
`get_pairs`, which requires evidence from more than one link); with the path
far exceeding the threshold (length 500), no connection is stored at all. -/
theorem c4_amended_connection_threshold :
    (mkCC (c4_regions 10) 2).connected_crossroads = [(1, 2, [([10, 11], 3)])] ∧
    get_pairs (mkCC (c4_regions 10) 2) = [] ∧
    (500 : Rat) ≥ rat_max 20 20 * 2 ∧
    (mkCC (c4_regions 500) 2).connected_crossroads = [] ∧
    get_pairs (mkCC (c4_regions 500) 2) = [] := by
  refine ⟨by decide, by decide, by decide, by decide, by decide⟩

theorem reg_grows_refl (r : Reg) : reg_grows r r :=
  ⟨[], by simp⟩

theorem reg_grows_trans {a b c : Reg} (h1 : reg_grows a b) (h2 : reg_grows b c) :
    reg_grows a c := by
  obtain ⟨t1, e1⟩ := h1
  obtain ⟨t2, e2⟩ := h2
  exact ⟨t1 ++ t2, by rw [e2, e1, List.append_assoc]⟩

theorem add_node_grows (r : Reg) (n : Nat) : reg_grows r (add_node r n) := by
  unfold add_node
  split
  · exact reg_grows_refl r
  · exact ⟨[n], rfl⟩

theorem add_edge_rnodes (r : Reg) (a b : Nat) : (add_edge r a b).rnodes = r.rnodes := by
  unfold add_edge
  split <;> rfl

theorem foldl_grows {α : Type} (f : Reg → α → Reg) (h : ∀ r x, reg_grows r (f r x)) :
    ∀ (l : List α) (r : Reg), reg_grows r (l.foldl f r)
  | [], r => reg_grows_refl r
  | x :: xs, r => reg_grows_trans (h r x) (foldl_grows f h xs (f r x))

theorem add_path_grows (r : Reg) (p : List Nat) : reg_grows r (add_path r p) := by
  unfold add_path
  refine reg_grows_trans (foldl_grows add_node add_node_grows p r) ?_
  have hE : ∀ (l : List (Nat × Nat)) (r : Reg),
      (l.foldl (fun r ab => add_edge r ab.1 ab.2) r).rnodes = r.rnodes := by
    intro l
    induction l with
    | nil => intro r; rfl
    | cons ab l ih => intro r; rw [List.foldl_cons, ih, add_edge_rnodes]
  exact ⟨[], by rw [hE, List.append_nil]⟩

theorem try_paths_grows (G : Graph) (r : Reg) (ps : List (List Nat)) :
    reg_grows r (try_paths G r ps) := by
  induction ps with
  | nil => exact reg_grows_refl r
  | cons p rest ih =>
    unfold try_paths
    split
    · exact add_path_grows r p
    · exact ih

theorem propagate_grows (G : Graph) (others : List Reg) (r0 : Reg) (n : Nat) :
    reg_grows (add_node r0 n) (propagate G others r0 n) := by
  unfold propagate
  refine foldl_grows _ (fun r nb => ?_) _ _
  split
  · exact try_paths_grows G r _
  · exact reg_grows_refl r

theorem propagate_seed_rnodes (G : Graph) (others : List Reg) (i n : Nat) :
    ∃ t, (propagate G others { rid := i, rnodes := [], redges := [] } n).rnodes = n :: t := by
  obtain ⟨t, ht⟩ := propagate_grows G others { rid := i, rnodes := [], redges := [] } n
  have hstart : (add_node { rid := i, rnodes := [], redges := [] } n).rnodes = [n] := by
    simp [add_node]
  exact ⟨t, by rw [ht, hstart]; rfl⟩

theorem propagate_center (G : Graph) (others : List Reg) (i n : Nat) :
    regCenter (propagate G others { rid := i, rnodes := [], redges := [] } n) = n ∧
    n ∈ (propagate G others { rid := i, rnodes := [], redges := [] } n).rnodes := by
  obtain ⟨t, ht⟩ := propagate_seed_rnodes G others i n
  exact ⟨by rw [regCenter, ht]; rfl, by rw [ht]; exact List.mem_cons_self n t⟩

theorem mkCrossroad_center (G : Graph) (others : List Reg) (rid seed : Nat) :
    (mkCrossroad G others rid seed).getCenter = seed ∧
    (mkCrossroad G others rid seed).getCenter ∈ (mkCrossroad G others rid seed).reg.rnodes := by
  obtain ⟨h1, h2⟩ := propagate_center G others rid seed
  have hreg : (mkCrossroad G others rid seed).reg =
      propagate G others { rid := rid, rnodes := [], redges := [] } seed := rfl
  constructor
  · rw [Crossroad.getCenter, hreg]
    exact h1
  · rw [Crossroad.getCenter, hreg, h1]
    exact h2

theorem node_claimed_append (regs : List Reg) (r : Reg) (m : Nat)
    (h : node_claimed regs m = true) : node_claimed (regs ++ [r]) m = true := by
  simp only [node_claimed, List.any_append, Bool.or_eq_true]
  exact Or.inl h

theorem node_claimed_of_mem {regs : List Reg} {r : Reg} {m : Nat}
    (hr : r ∈ regs) (hm : m ∈ r.rnodes) : node_claimed regs m = true := by
  simp only [node_claimed, List.any_eq_true, decide_eq_true_eq]
  exact ⟨r, hr, hm⟩

theorem build_step_inv (G : Graph) (st : List Reg × List Crossroad × Nat) (n : Nat)
    (h : build_inv G st) : build_inv G (build_step G st n) := by
  obtain ⟨regs, crs, nid⟩ := st
  obtain ⟨h1, h2, h3, h4⟩ := h
  simp only [build_step]
  split
  case isFalse => exact ⟨h1, h2, h3, h4⟩
  case isTrue hunk =>
    split
    case isFalse => exact ⟨h1, h2, h3, h4⟩
    case isTrue hrel =>
      split
      case isTrue hstraight => exact ⟨h1, h2, h3, h4⟩
      case isFalse hstraight =>
        have hfree : node_claimed regs n = false := by
          simpa using hunk
        obtain ⟨hcen, hcmem⟩ := mkCrossroad_center G regs nid n
        refine ⟨?_, ?_, ?_, ?_⟩
        · intro c' hc' m hm
          rcases List.mem_append.1 hc' with hold | hnew
          · exact node_claimed_append _ _ _ (h1 c' hold m hm)
          · have : c' = mkCrossroad G regs nid n := by simpa using hnew
            subst this
            exact node_claimed_of_mem (by simp) hm
        · intro c' hc'
          rcases List.mem_append.1 hc' with hold | hnew
          · exact h2 c' hold
          · have : c' = mkCrossroad G regs nid n := by simpa using hnew
            subst this
            exact hcmem
        · refine List.pairwise_append.2 ⟨h3, List.pairwise_singleton _ _, ?_⟩
          intro a ha b hb
          have hb' : b = mkCrossroad G regs nid n := by simpa using hb
          subst hb'
          rw [hcen]
          intro heq
          have hclA : node_claimed regs a.getCenter = true := h1 a ha _ (h2 a ha)
          rw [heq, hfree] at hclA
          exact Bool.false_ne_true hclA
        · intro c' hc'
          rcases List.mem_append.1 hc' with hold | hnew
          · exact h4 c' hold
          · have : c' = mkCrossroad G regs nid n := by simpa using hnew
            subst this
            simpa using hstraight

theorem build_foldl_inv (G : Graph) :
    ∀ (l : List Nat) (st : List Reg × List Crossroad × Nat),
      build_inv G st → build_inv G (l.foldl (build_step G) st)
  | [], _, h => h
  | x :: xs, st, h => build_foldl_inv G xs _ (build_step_inv G st x h)

theorem build_crossroads_inv (G : Graph) :
    build_inv G (G.nodes.foldl (build_step G) ([], [], 0)) := by
  refine build_foldl_inv G G.nodes ([], [], 0) ?_
  refine ⟨?_, ?_, ?_, ?_⟩ <;> simp [build_inv, List.Pairwise.nil]

/-- Counterexample to C1: in `exG1`, `build_crossroads` keeps two distinct
crossroads (seeded at 0 and at 4) whose member-node sets both contain node 2.
The second walk reaches node 2 — already claimed by the first region — appends
it, stops, and the junction rule then commits the whole path including it. -/
theorem c1_counterexample :
    (build_crossroads exG1).length = 2 ∧
    ((build_crossroads exG1).getD 0 default).reg.rnodes = [0, 1, 2] ∧
    ((build_crossroads exG1).getD 1 default).reg.rnodes = [4, 3, 2] ∧
    (build_crossroads exG1).getD 0 default ≠ (build_crossroads exG1).getD 1 default ∧
    2 ∈ ((build_crossroads exG1).getD 0 default).reg.rnodes ∧
    2 ∈ ((build_crossroads exG1).getD 1 default).reg.rnodes := by
  refine ⟨by decide, by decide, by decide, by decide, by decide, by decide⟩

/-- C1 as amended: growth is seeded only at nodes claimed by no known region,
so the centre (seed) nodes of distinct kept crossroads are pairwise distinct;
a committed candidate path may however terminate at a node already claimed by
another region, so the full member-node sets need not be disjoint. -/
theorem c1_amended_distinct_centers (G : Graph) :
    (build_crossroads G).Pairwise (fun a b => a.getCenter ≠ b.getCenter) :=
  (build_crossroads_inv G).2.2.1

/-- C6: `is_straight_crossing` holds exactly when no member node has more than
two neighbours, and every crossroad kept by `build_crossroads` fails it — so
each kept region has a member node of degree greater than 2. -/
theorem c6_no_straight_crossing_kept (G : Graph) :
    (∀ reg : Reg, is_straight_crossing G reg = true ↔
      ∀ n ∈ reg.rnodes, (G.nbrs n).length ≤ 2) ∧
    (∀ c ∈ build_crossroads G, is_straight_crossing G c.reg = false ∧
      ∃ n ∈ c.reg.rnodes, 2 < (G.nbrs n).length) := by
  have hiff : ∀ reg : Reg, is_straight_crossing G reg = true ↔
      ∀ n ∈ reg.rnodes, (G.nbrs n).length ≤ 2 := by
    intro reg
    simp [is_straight_crossing, List.all_eq_true, Nat.not_lt]
  refine ⟨hiff, fun c hc => ?_⟩
  have hfalse : is_straight_crossing G c.reg = false :=
    (build_crossroads_inv G).2.2.2 c hc
  refine ⟨hfalse, ?_⟩
  by_contra hno
  push_neg at hno
  have : is_straight_crossing G c.reg = true :=
    (hiff c.reg).2 (fun n hn => Nat.le_of_lt_succ (Nat.lt_succ_of_le (hno n hn)))
  rw [this] at hfalse
  exact Bool.true_eq_false.mp hfalse

/-- Witness for C6 on the first crossroad kept from `exG1`. -/
theorem c6_witness :
    ((build_crossroads exG1).getD 0 default) ∈ build_crossroads exG1 ∧
    is_straight_crossing exG1 ((build_crossroads exG1).getD 0 default).reg = false :=
  ⟨by decide,
    ((c6_no_straight_crossing_kept exG1).2 ((build_crossroads exG1).getD 0 default)
      (by decide)).1⟩

theorem cc_initial_id_lt (regions : List (Nat × CRegion)) (crossroads : List Nat)
    (adj : List (Nat × List (Nat × List Nat))) (rbn : List (Nat × List Nat))
    (threshold : Rat) (c : Nat × Nat × (List Nat × Nat))
    (hc : c ∈ cc_initial_connections regions crossroads adj rbn threshold) :
    region_id_of regions c.1 < region_id_of regions c.2.1 := by
  simp only [cc_initial_connections, List.mem_flatMap] at hc
  obtain ⟨cr, _, l, _, hc⟩ := hc
  rw [List.mem_filterMap] at hc
  obtain ⟨cr2, _, hf⟩ := hc
  split_ifs at hf with h1 h2
  cases hf
  exact h1

theorem alist_upd_keys {κ α : Type} [DecidableEq κ] (m : List (κ × α)) (k : κ) (d : α)
    (f : α → α) : ∀ q ∈ alist_upd m k d f, q.1 = k ∨ ∃ q' ∈ m, q'.1 = q.1 := by
  intro q hq
  unfold alist_upd at hq
  split at hq
  · rw [List.mem_map] at hq
    obtain ⟨p, hp, he⟩ := hq
    have hq1 : q.1 = p.1 := by
      split_ifs at he <;> simp [← he]
    exact Or.inr ⟨p, hp, hq1.symm⟩
  · rw [List.mem_append] at hq
    rcases hq with hq | hq
    · exact Or.inr ⟨q, hq, rfl⟩
    · rw [List.mem_singleton] at hq
      subst hq
      exact Or.inl rfl

theorem cc_merge_fold_source (cs : List (Nat × Nat × (List Nat × Nat))) :
    ∀ (m : List ((Nat × Nat) × List (List Nat × Nat)))
      (p : (Nat × Nat) × List (List Nat × Nat)),
      p ∈ cs.foldl (fun m c => alist_upd m (c.1, c.2.1) [] (fun ev => ev ++ [c.2.2])) m →
      (∃ q ∈ m, q.1 = p.1) ∨ ∃ e, (p.1.1, p.1.2, e) ∈ cs := by
  induction cs with
  | nil =>
    intro m p hp
    exact Or.inl ⟨p, hp, rfl⟩
  | cons c cs ih =>
    intro m p hp
    rw [List.foldl_cons] at hp
    rcases ih _ p hp with ⟨q, hq, he⟩ | ⟨e, hee⟩
    · rcases alist_upd_keys m (c.1, c.2.1) [] _ q hq with hk | ⟨q', hq', he'⟩
      · right
        refine ⟨c.2.2, ?_⟩
        have hp1 : p.1 = (c.1, c.2.1) := he ▸ hk
        have : (p.1.1, p.1.2, c.2.2) = c := by
          rw [hp1]
        rw [this]
        exact List.mem_cons_self c cs
      · exact Or.inl ⟨q', hq', he'.trans he⟩
    · exact Or.inr ⟨e, List.mem_cons_of_mem c hee⟩

theorem cc_merge_source (cs : List (Nat × Nat × (List Nat × Nat)))
    (c' : Nat × Nat × List (List Nat × Nat)) (hc : c' ∈ cc_merge cs) :
    ∃ e, (c'.1, c'.2.1, e) ∈ cs := by
  unfold cc_merge at hc
  rw [List.mem_map] at hc
  obtain ⟨p, hp, he⟩ := hc
  obtain ⟨q, _, _⟩ | ⟨e, hee⟩ := cc_merge_fold_source cs [] p hp
  · simp_all
  · exact ⟨e, by rw [← he]; exact hee⟩

/-- C8: every stored connection is canonically ordered — the region id of the
first component is strictly below that of the second — and consequently no
pair is also stored in the opposite order. -/
theorem c8_connection_canonical_order (regions : List (Nat × CRegion)) (threshold : Rat) :
    ∀ c ∈ (mkCC regions threshold).connected_crossroads,
      region_id_of regions c.1 < region_id_of regions c.2.1 ∧
      ∀ c' ∈ (mkCC regions threshold).connected_crossroads,
        ¬ (c'.1 = c.2.1 ∧ c'.2.1 = c.1) := by
  have hA : ∀ x ∈ (mkCC regions threshold).connected_crossroads,
      region_id_of regions x.1 < region_id_of regions x.2.1 := by
    intro x hx
    obtain ⟨e, he⟩ := cc_merge_source _ x hx
    exact cc_initial_id_lt regions _ _ _ threshold (x.1, x.2.1, e) he
  intro c hc
  refine ⟨hA c hc, fun c' hc' hswap => ?_⟩
  have h2 := hA c' hc'
  rw [hswap.1, hswap.2] at h2
  exact absurd ((hA c hc).trans h2) (lt_irrefl _)

/-- Witness for C8 on the triangle configuration. -/
theorem c8_witness :
    ((1, 2, [([10, 20], 4)]) : Nat × Nat × List (List Nat × Nat)) ∈
      (mkCC tri_regions 2).connected_crossroads ∧
    region_id_of tri_regions 1 < region_id_of tri_regions 2 :=
  ⟨by decide,
    (c8_connection_canonical_order tri_regions 2 (1, 2, [([10, 20], 4)]) (by decide)).1⟩

theorem unique_fold_aux (cs : List Cyc) :
    ∀ (res : List Cyc) (seen : List (Finset Nat)),
      seen = res.map cycle_idset →
      (res.map cycle_idset).Pairwise (· ≠ ·) →
      ((cs.foldl unique_step (res, seen)).1.map cycle_idset).Pairwise (· ≠ ·) ∧
      (∃ t, (cs.foldl unique_step (res, seen)).1 = res ++ t ∧ t.Sublist cs) ∧
      (∀ x : Finset Nat, x ∈ (cs.foldl unique_step (res, seen)).1.map cycle_idset ↔
        x ∈ res.map cycle_idset ∨ x ∈ cs.map cycle_idset) := by
  induction cs with
  | nil =>
    intro res seen hseen hpw
    exact ⟨hpw, ⟨[], by simp, List.nil_sublist []⟩, fun x => by simp⟩
  | cons c cs ih =>
    intro res seen hseen hpw
    rw [List.foldl_cons]
    by_cases hin : cycle_idset c ∈ seen
    · have hstep : unique_step (res, seen) c = (res, seen) := by
        simp [unique_step, hin]
      rw [hstep]
      obtain ⟨hp, ⟨t, ht, hs⟩, hcov⟩ := ih res seen hseen hpw
      refine ⟨hp, ⟨t, ht, hs.cons c⟩, fun x => ?_⟩
      rw [hcov x, List.map_cons, List.mem_cons]
      constructor
      · rintro (h | h)
        · exact Or.inl h
        · exact Or.inr (Or.inr h)
      · rintro (h | h | h)
        · exact Or.inl h
        · subst h
          rw [hseen] at hin
          exact Or.inl hin
        · exact Or.inr h
    · have hstep : unique_step (res, seen) c = (res ++ [c], seen ++ [cycle_idset c]) := by
        simp [unique_step, hin]
      rw [hstep]
      have hseen' : seen ++ [cycle_idset c] = (res ++ [c]).map cycle_idset := by
        rw [List.map_append, hseen]
        rfl
      have hpw' : ((res ++ [c]).map cycle_idset).Pairwise (· ≠ ·) := by
        rw [List.map_append]
        refine List.pairwise_append.2 ⟨hpw, by simp, ?_⟩
        intro a ha b hb
        rw [List.map_singleton, List.mem_singleton] at hb
        subst hb
        intro heq
        rw [heq, ← hseen] at ha
        exact hin ha
      obtain ⟨hp, ⟨t, ht, hs⟩, hcov⟩ :=
        ih (res ++ [c]) (seen ++ [cycle_idset c]) hseen' hpw'
      refine ⟨hp, ⟨c :: t, by rw [ht, List.append_assoc]; rfl, hs.cons₂ c⟩, fun x => ?_⟩
      rw [hcov x]
      simp only [List.map_append, List.mem_append, List.map_cons, List.mem_cons,
        List.map_nil, List.not_mem_nil, or_false]
      tauto

/-- C7: `get_unique_cycles` keeps at most one cycle per crossroad-id set — the
retained cycles have pairwise distinct id sets, form a sublist of the input
(first occurrences), and realise exactly the id sets of the input; in
particular three pairwise-connected crossroads yield exactly one 3-element
cycle from `get_cycles`. -/
theorem c7_cycle_dedup (cycles : List Cyc) :
    ((get_unique_cycles cycles).map cycle_idset).Pairwise (· ≠ ·) ∧
    (get_unique_cycles cycles).Sublist cycles ∧
    (∀ x : Finset Nat, x ∈ (get_unique_cycles cycles).map cycle_idset ↔
      x ∈ cycles.map cycle_idset) ∧
    get_cycles (mkCC tri_regions 2) 5 =
      [[(1, []), (2, [([10, 20], 4)]), (3, [([20, 30], 5)]), (1, [([10, 30], 6)])]] ∧
    (get_cycles (mkCC tri_regions 2) 5).length = 1 ∧
    cycle_idset [(1, []), (2, [([10, 20], 4)]), (3, [([20, 30], 5)]), (1, [([10, 30], 6)])] =
      {1, 2, 3} := by
  obtain ⟨hp, ⟨t, ht, hs⟩, hcov⟩ := unique_fold_aux cycles [] [] rfl (by simp)
  refine ⟨hp, ?_, fun x => by simpa using hcov x, by decide, by decide, by decide⟩
  unfold get_unique_cycles
  rw [ht]
  simpa using hs

/-- Counterexample to C9: in the state `st9` two retained clusters both claim
`crX`, which is visited and matches the current crossroad.  The merge branch
only counts a diagnostic: neither matching cluster is absorbed into the
current cluster (which still holds only `crCur`) and the retained clusters are
left untouched — contrary to the claim that processing continues using the
first matching cluster. -/
theorem c9_counterexample :
    in_same_cluster exG9 crCur crX = true ∧
    st9.visited.contains crX.reg.rid = true ∧
    (st9.result.filter (fun c => c.contains crX)).length = 2 ∧
    cluster_inner_step exG9 crCur st9 crX = { st9 with errors := 1 } ∧
    (cluster_inner_step exG9 crCur st9 crX).cluster ≠ st9.cluster ++ [crA, crX] ∧
    (cluster_inner_step exG9 crCur st9 crX).result = st9.result := by
  refine ⟨by decide, by decide, by decide, by decide, by decide, by decide⟩

/-- C9 as amended: when an already-visited matching crossroad is claimed by
more than one retained cluster, a diagnostic is counted and the merge is
skipped entirely — the current cluster, the retained clusters and the visited
set are all left unchanged (a cluster is absorbed only when exactly one
retained cluster claims the crossroad). -/
theorem c9_amended_merge_skipped (G : Graph) (crossroad : Crossroad) (st : ClState)
    (cr : Crossroad) (h1 : in_same_cluster G crossroad cr = true)
    (h2 : st.visited.contains cr.reg.rid = true)
    (h3 : 1 < (st.result.filter (fun c => c.contains cr)).length) :
    cluster_inner_step G crossroad st cr = { st with errors := st.errors + 1 } := by
  simp only [cluster_inner_step]
  rw [if_pos h1, if_neg (by simpa using h2), if_pos (by omega)]

/-- Witness for C9 as amended on the concrete state `st9`. -/
theorem c9_witness :
    (in_same_cluster exG9 crCur crX = true ∧ st9.visited.contains crX.reg.rid = true ∧
      1 < (st9.result.filter (fun c => c.contains crX)).length) ∧
    cluster_inner_step exG9 crCur st9 crX = { st9 with errors := st9.errors + 1 } :=
  ⟨⟨by decide, by decide, by decide⟩,
    c9_amended_merge_skipped exG9 crCur st9 crX (by decide) (by decide) (by decide)⟩

end Crseg
